import Mathlib

/-!
Verification development for the interactive 2-D electrostatics visualizer
(Electrostatics2.html and its in-repo review documents).

The repository ships the review/analysis documents of the widget; the widget
source itself is present only through the code excerpts quoted verbatim in
those documents (pickCharge, the heatmap clip selection, the constants
soften = 0.01 and maxSteps = 1200).  Functions whose full bodies are not in
the repository are modelled from the specification, as marked in their doc
comments; everything quoted in the repository is embedded as quoted.

Numbers are embedded as exact rationals (or reals for the field solver);
JavaScript values that may be NaN or infinite are embedded as the JsNum type
below, whose non-finite constructors carry no rational value.
-/

namespace Electrostatics

/-- Charge record of the Scene Model: unique id, world position, signed
magnitude, in creation order inside the scene list. -/
structure Charge where
  id : Nat
  x : ℚ
  y : ℚ
  q : ℚ
deriving DecidableEq

/-- Hit radius selected by pickCharge, quoted from the repository review
documents: ontouchstart in window ? 20 : 14.  The choice reads a device
capability of the window, not the input source of the current event. -/
def hitRadius (touchCapable : Bool) : ℚ := if touchCapable then 20 else 14

/-- Decides Math.hypot (x - cx) (y - cy) <= r by comparing squares, which is
equivalent for 0 <= r (theorem withinRadius_iff_sqrt_le below). -/
def withinRadius (x y cx cy r : ℚ) : Bool :=
  decide ((x - cx) * (x - cx) + (y - cy) * (y - cy) ≤ r * r)

/-- Hit test with an explicit radius: the source loop runs i from
charges.length - 1 down to 0 and returns the id of the first charge within
the radius, which is find? over the reversed charge list. -/
def pickChargeR (r : ℚ) (x y : ℚ) (charges : List Charge) : Option Nat :=
  (charges.reverse.find? fun c => withinRadius x y c.x c.y r).map Charge.id

/-- Embeds pickCharge as quoted in the repository review documents:
the hit radius is 20 when the window has an ontouchstart property and 14
otherwise, and the loop scans charges from the last created to the first. -/
def pickCharge (touchCapable : Bool) (x y : ℚ) (charges : List Charge) : Option Nat :=
  (charges.reverse.find? fun c => withinRadius x y c.x c.y (hitRadius touchCapable)).map Charge.id

/-- Input source of a pointer event after the unified mouse/touch handling. -/
inductive PointerOrigin where
  | mouse
  | touch
deriving DecidableEq

/-- Hit-test step of handlePointerDown: per the review documents the unified
handler extracts canvas coordinates from either event kind and passes only
the coordinates to pickCharge, so the event origin is not consulted. -/
def pointerDownHit (touchCapable : Bool) (o : PointerOrigin) (x y : ℚ)
    (charges : List Charge) : Option Nat :=
  match o with
  | _ => pickCharge touchCapable x y charges

/-- Modelled from the spec: the manual-range read in computeHeatmap,
parseFloat(displayRangeEl2.value) || 40 as quoted in the review documents;
a zero (or failed) parse falls back to 40, any other finite value is taken
as entered. -/
def userRange (displayRangeValue : ℚ) : ℚ :=
  if displayRangeValue = 0 then 40 else displayRangeValue

/-- Modelled from the spec: clip-value selection of computeHeatmap after the
range-capping fix recorded in the repository review documents.  autoScale
true takes the maximum magnitude observed across the grid this pass
(lastAmp); autoScale false takes the user range with no cap against
lastAmp (the quoted fixed line is Vclip = userRange). -/
def computeHeatmapClip (autoScale : Bool) (displayRangeValue lastAmp : ℚ) : ℚ :=
  if autoScale then lastAmp else userRange displayRangeValue

/-- Display-setting state visible to the user: the autoScale checkbox and the
numeric range input field displayRangeEl2. -/
structure DisplayState where
  autoScale : Bool
  displayRangeValue : ℚ
deriving DecidableEq

/-- Modelled from the spec: computeHeatmap as invoked from the render loop.
The repository review documents record, as a remaining defect, that lines
369-371 of the widget write the recomputed clip back into the displayed
range input (observable when autoScale recomputes the clip from data);
the pass therefore returns both the clip and the updated input state. -/
def computeHeatmapPass (st : DisplayState) (lastAmp : ℚ) : ℚ × DisplayState :=
  let vclip := computeHeatmapClip st.autoScale st.displayRangeValue lastAmp
  (vclip, if st.autoScale then { st with displayRangeValue := vclip } else st)

/-- JavaScript number at the settings and persistence boundaries: either a
finite value or one of the non-finite values NaN, Infinity, -Infinity. -/
inductive JsNum where
  | fin (q : ℚ)
  | nan
  | posInf
  | negInf
deriving DecidableEq

/-- Number.isFinite. -/
def JsNum.isFinite : JsNum → Bool
  | .fin _ => true
  | _ => false

/-- Finite value of a JsNum, if any. -/
def JsNum.toFinite : JsNum → Option ℚ
  | .fin q => some q
  | _ => none

/-- Charge as seen by the settings boundary: its magnitude holds whatever the
magnitude input handler last assigned, finite or not. -/
structure UICharge where
  id : Nat
  q : JsNum
deriving DecidableEq

/-- Modelled from the spec: the selectedChargeMag input handler.  Per the
repository review documents (No Input Validation, a remaining issue), the
handler assigns the parseFloat result to the selected charge with no
finiteness or bounds check. -/
def applyMagInput (charges : List UICharge) (selectedId : Nat) (v : JsNum) :
    List UICharge :=
  charges.map fun c => if c.id = selectedId then { c with q := v } else c

/-- Serialized charge of the persistence mapping: x, y, q as raw JS numbers. -/
structure SavedCharge where
  x : JsNum
  y : JsNum
  q : JsNum
deriving DecidableEq

/-- Serialized scene: charges plus display settings, the persistence
contract of the spec. -/
structure SavedScene where
  charges : List SavedCharge
  autoScale : Bool
  rangeV : JsNum
deriving DecidableEq

/-- In-memory scene: validated charges in creation order plus display
settings. -/
structure Scene where
  charges : List Charge
  autoScale : Bool
  rangeV : ℚ
deriving DecidableEq

/-- Modelled from the spec: the default empty scene used when a load fails;
display settings take their defaults (autoScale on, range 40). -/
def defaultScene : Scene := ⟨[], true, 40⟩

/-- Modelled from the spec: serialization of a scene to the persistence
mapping with charges as x, y, q triples. -/
def saveScene (s : Scene) : SavedScene :=
  ⟨s.charges.map fun c => ⟨JsNum.fin c.x, JsNum.fin c.y, JsNum.fin c.q⟩,
   s.autoScale, JsNum.fin s.rangeV⟩

/-- Modelled from the spec: validation of one serialized charge; every field
must be finite. -/
def parseSavedCharge (c : SavedCharge) : Option (ℚ × ℚ × ℚ) :=
  match c.x, c.y, c.q with
  | JsNum.fin x, JsNum.fin y, JsNum.fin q => some (x, y, q)
  | _, _, _ => none

/-- Modelled from the spec: validation of the serialized charge list,
aborting on the first invalid charge (no partial application). -/
def parseCharges : List SavedCharge → Option (List (ℚ × ℚ × ℚ))
  | [] => some []
  | c :: cs =>
    match parseSavedCharge c, parseCharges cs with
    | some t, some ts => some (t :: ts)
    | _, _ => none

/-- Rebuilds scene charges from validated triples, assigning fresh sequential
ids (the persistence mapping does not store ids). -/
def buildCharges : Nat → List (ℚ × ℚ × ℚ) → List Charge
  | _, [] => []
  | i, t :: ts => ⟨i, t.1, t.2.1, t.2.2⟩ :: buildCharges (i + 1) ts

/-- Modelled from the spec: scene load validation; all charge fields and the
range must be finite, otherwise the parse fails as a whole. -/
def parseSavedScene (s : SavedScene) : Option Scene :=
  match parseCharges s.charges, s.rangeV.toFinite with
  | some ts, some r => some ⟨buildCharges 0 ts, s.autoScale, r⟩
  | _, _ => none

/-- Modelled from the spec: loading a serialized scene falls back to the
default empty scene on malformed input rather than failing the widget. -/
def loadScene (s : SavedScene) : Scene := (parseSavedScene s).getD defaultScene

/-- Observable content of a scene: the charge (x, y, q) triples in order plus
the display settings.  Ids are handles, not observable content. -/
def observableScene (s : Scene) : List (ℚ × ℚ × ℚ) × Bool × ℚ :=
  (s.charges.map fun c => (c.x, c.y, c.q), s.autoScale, s.rangeV)

/-- Flow carrier: position and age in frames, owned by the Flow Integrator. -/
structure Carrier where
  x : ℚ
  y : ℚ
  age : Nat
deriving DecidableEq

/-- Maximum carrier age in steps, quoted from the repository review
documents: const seedsPer = 10, stepLen = 6, maxSteps = 1200. -/
def maxSteps : Nat := 1200

/-- Membership in the visible bounds [0, w] x [0, h]. -/
def inBounds (w h x y : ℚ) : Bool :=
  decide (0 ≤ x) && decide (x ≤ w) && decide (0 ≤ y) && decide (y ≤ h)

/-- Modelled from the spec: a carrier is near a sink when it comes within a
small radius of a sufficiently negative charge. -/
def nearSink (sinkR : ℚ) (charges : List Charge) (x y : ℚ) : Bool :=
  charges.any fun c => decide (c.q < 0) && withinRadius x y c.x c.y sinkR

/-- Modelled from the spec: retirement condition of a carrier after its
advance; it has exited the visible bounds, its age exceeds the maximum step
count, or it is within the sink radius of a sink charge. -/
def retireCarrier (w h sinkR : ℚ) (charges : List Charge) (c : Carrier) : Bool :=
  !(inBounds w h c.x c.y) || decide (maxSteps < c.age) || nearSink sinkR charges c.x c.y

/-- Modelled from the spec: per-frame advance of one carrier along the
velocity field (speedBase times the normalized field, a visual-polish
parameter kept abstract here), aging it by one step. -/
def advanceCarrier (vel : ℚ × ℚ → ℚ × ℚ) (c : Carrier) : Carrier :=
  ⟨c.x + (vel (c.x, c.y)).1, c.y + (vel (c.x, c.y)).2, c.age + 1⟩

/-- Modelled from the spec: a reseeded carrier restarts at a seed position
with age zero. -/
def reseedCarrier (p : ℚ × ℚ) : Carrier := ⟨p.1, p.2, 0⟩

/-- Modelled from the spec: one frame of the Flow Integrator.  Every live
carrier advances one step; a carrier meeting the retirement condition is
retired and immediately reseeded (the seed placement, near a source charge
at a distributed angle, is kept abstract as seedPos). -/
def stepFrame (vel : ℚ × ℚ → ℚ × ℚ) (seedPos : Carrier → ℚ × ℚ)
    (w h sinkR : ℚ) (charges : List Charge) (carriers : List Carrier) :
    List Carrier :=
  carriers.map fun c =>
    let c2 := advanceCarrier vel c
    if retireCarrier w h sinkR charges c2 then reseedCarrier (seedPos c2) else c2

/-- Leak invariant of the Flow Integrator: a live carrier is at most
maxSteps old and inside the visible bounds. -/
def carrierOK (w h : ℚ) (c : Carrier) : Bool :=
  decide (c.age ≤ maxSteps) && inBounds w h c.x c.y

/-- Charge as consumed by the Field Solver: real position and magnitude. -/
structure FieldCharge where
  x : ℝ
  y : ℝ
  q : ℝ

/-- Softening radius, quoted from the repository review documents:
const soften = 0.01. -/
noncomputable def soften : ℝ := 0.01

/-- Euclidean distance between the query point and a charge center. -/
noncomputable def dist (px py cx cy : ℝ) : ℝ :=
  Real.sqrt ((px - cx) ^ 2 + (py - cy) ^ 2)

/-- Modelled from the spec: softened distance max(distance, soften) used by
the Field Solver in place of the raw distance. -/
noncomputable def softDist (px py cx cy : ℝ) : ℝ :=
  max (dist px py cx cy) soften

/-- Modelled from the spec: potential at a query point, accumulated over the
charges in scene order as the solver loop does: each charge adds
k * q / softDist. -/
noncomputable def potentialAt (k : ℝ) (charges : List FieldCharge) (px py : ℝ) : ℝ :=
  charges.foldl (fun acc c => acc + k * c.q / softDist px py c.x c.y) 0

/-- Modelled from the spec: field vector at a query point, accumulated over
the charges in scene order: each charge adds k * q * (p - pc) / softDist^3
componentwise. -/
noncomputable def fieldAt (k : ℝ) (charges : List FieldCharge) (px py : ℝ) : ℝ × ℝ :=
  charges.foldl
    (fun acc c =>
      (acc.1 + k * c.q * (px - c.x) / softDist px py c.x c.y ^ 3,
       acc.2 + k * c.q * (py - c.y) / softDist px py c.x c.y ^ 3))
    (0, 0)

/-- Helper: find? returns the head of the filtered list. -/
theorem find?_eq_head?_filter {α : Type} (p : α → Bool) (l : List α) :
    l.find? p = (l.filter p).head? := by
  induction l with
  | nil => rfl
  | cons a t ih =>
    by_cases h : p a = true
    · rw [List.find?_cons_of_pos t h, List.filter_cons_of_pos h, List.head?_cons]
    · rw [List.find?_cons_of_neg t h, List.filter_cons_of_neg h, ih]

/-- Helper: find? on a one-element list whose element matches. -/
theorem find?_singleton_pos {α : Type} (p : α → Bool) (a : α) (h : p a = true) :
    List.find? p [a] = some a :=
  List.find?_cons_of_pos [] h

/-- Helper: find? on a one-element list whose element does not match. -/
theorem find?_singleton_neg {α : Type} (p : α → Bool) (a : α) (h : p a = false) :
    List.find? p [a] = none := by
  rw [List.find?_cons_of_neg [] (by simp [h]), List.find?_nil]

/-- Helper: scanning a list backwards for the first match yields the last
match of a forward scan. -/
theorem reverse_find?_eq_filter_getLast? {α : Type} (p : α → Bool) (l : List α) :
    l.reverse.find? p = (l.filter p).getLast? := by
  rw [find?_eq_head?_filter, List.filter_reverse, List.head?_reverse]

/-- Helper: justification of the withinRadius embedding; for a nonnegative
radius, comparing squared lengths decides Math.hypot dx dy <= r exactly. -/
theorem withinRadius_iff_sqrt_le (x y cx cy r : ℚ) (hr : 0 ≤ r) :
    withinRadius x y cx cy r = true ↔
      Real.sqrt ((((x : ℝ)) - cx) ^ 2 + (((y : ℝ)) - cy) ^ 2) ≤ (r : ℝ) := by
  rw [withinRadius, decide_eq_true_eq,
    Real.sqrt_le_left (by exact_mod_cast hr : (0 : ℝ) ≤ (r : ℝ))]
  constructor
  · intro h
    have h' : (((x - cx) * (x - cx) + (y - cy) * (y - cy) : ℚ) : ℝ) ≤ ((r * r : ℚ) : ℝ) := by
      exact_mod_cast h
    push_cast at h'
    nlinarith [h']
  · intro h
    have h' : (((x : ℝ)) - cx) * (((x : ℝ)) - cx) + (((y : ℝ)) - cy) * (((y : ℝ)) - cy) ≤
        (r : ℝ) * r := by nlinarith [h]
    exact_mod_cast h'

/-- C5: when several charges lie within the hit radius, hit-testing returns
the most recently created (visually topmost) one: the reverse-order scan
returns exactly the last element of the charge list that is within the
radius. -/
theorem pickCharge_topmost (touchCapable : Bool) (x y : ℚ) (charges : List Charge) :
    pickCharge touchCapable x y charges =
      ((charges.filter fun c => withinRadius x y c.x c.y (hitRadius touchCapable)).getLast?).map
        Charge.id := by
  rw [pickCharge, reverse_find?_eq_filter_getLast?]

/-- C10: the hit radius is chosen once per call from device touch capability
(20 when the window has ontouchstart, 14 otherwise), never from the input
source of the triggering event: any two pointer origins give the same hit
result, and the result is the generic hit test at the device radius. -/
theorem pickCharge_device_radius (touchCapable : Bool) (o o' : PointerOrigin)
    (x y : ℚ) (charges : List Charge) :
    pointerDownHit touchCapable o x y charges = pointerDownHit touchCapable o' x y charges ∧
    pointerDownHit touchCapable o x y charges =
      pickChargeR (if touchCapable then 20 else 14) x y charges ∧
    hitRadius true = 20 ∧ hitRadius false = 14 := by
  refine ⟨?_, ?_, rfl, rfl⟩
  · cases o <;> cases o' <;> rfl
  · cases o <;> cases touchCapable <;> rfl

/-- C4 counterexample: on a touch-capable device, a pointer-down of mouse
origin at distance 16 from a charge center (16 is between the radii 14 and
20) does register a hit, contrary to the claim that a mouse-origin
pointer-down at such a distance does not. -/
theorem pickCharge_mouse_hit_between_radii :
    pointerDownHit true PointerOrigin.mouse 16 0 [⟨1, 0, 0, 5⟩] = some 1 ∧
    (14 : ℚ) < 16 ∧ (16 : ℚ) ≤ 20 := by
  refine ⟨?_, by norm_num, by norm_num⟩
  have h : withinRadius 16 0 (0 : ℚ) 0 (hitRadius true) = true := by
    rw [withinRadius, hitRadius, decide_eq_true_eq]
    norm_num
  show (List.find? _ ([⟨1, 0, 0, 5⟩] : List Charge).reverse).map Charge.id = some 1
  rw [show ([⟨1, 0, 0, 5⟩] : List Charge).reverse = [⟨1, 0, 0, 5⟩] from rfl,
    find?_singleton_pos (fun c : Charge => withinRadius 16 0 c.x c.y (hitRadius true))
      ⟨1, 0, 0, 5⟩ h]
  rfl

/-- C4 amended: the asymmetric hit radius is keyed on device touch
capability, not on the input source of the event: for a point at distance d
from the charge center with 14 < d <= 20, a pointer-down of either origin on
a touch-capable device registers the hit while a pointer-down of either
origin on a non-touch device does not; the touch-device radius 20 is at
least 1.4 times the mouse radius 14. -/
theorem pickCharge_hit_radius_asymmetry (o o' : PointerOrigin) (c : Charge) (x y : ℚ)
    (h14 : 14 * 14 < (x - c.x) * (x - c.x) + (y - c.y) * (y - c.y))
    (h20 : (x - c.x) * (x - c.x) + (y - c.y) * (y - c.y) ≤ 20 * 20) :
    pointerDownHit true o x y [c] = some c.id ∧
    pointerDownHit false o' x y [c] = none ∧
    (1.4 : ℚ) * 14 ≤ 20 := by
  have htrue : withinRadius x y c.x c.y (hitRadius true) = true := by
    rw [withinRadius, hitRadius, decide_eq_true_eq]
    simpa using h20
  have hfalse : withinRadius x y c.x c.y (hitRadius false) = false := by
    rw [withinRadius, hitRadius, decide_eq_false_iff_not]
    simpa using not_le.mpr h14
  refine ⟨?_, ?_, by norm_num⟩
  · cases o <;>
    · show (List.find? _ ([c] : List Charge).reverse).map Charge.id = some c.id
      rw [show ([c] : List Charge).reverse = [c] from rfl,
        find?_singleton_pos (fun cc : Charge => withinRadius x y cc.x cc.y (hitRadius true))
          c htrue]
      rfl
  · cases o' <;>
    · show (List.find? _ ([c] : List Charge).reverse).map Charge.id = none
      rw [show ([c] : List Charge).reverse = [c] from rfl,
        find?_singleton_neg (fun cc : Charge => withinRadius x y cc.x cc.y (hitRadius false))
          c hfalse]
      rfl

/-- C4 amended witness: charge at the origin, pointer-down at (16, 0), a
distance strictly between the radii. -/
theorem pickCharge_hit_radius_asymmetry_witness :
    (14 * 14 < ((16 : ℚ) - 0) * (16 - 0) + (0 - 0) * (0 - 0)) ∧
    (((16 : ℚ) - 0) * (16 - 0) + (0 - 0) * (0 - 0) ≤ 20 * 20) ∧
    (pointerDownHit true PointerOrigin.touch 16 0 [⟨1, 0, 0, 5⟩] = some 1 ∧
     pointerDownHit false PointerOrigin.mouse 16 0 [⟨1, 0, 0, 5⟩] = none ∧
     (1.4 : ℚ) * 14 ≤ 20) :=
  ⟨by norm_num, by norm_num,
   pickCharge_hit_radius_asymmetry PointerOrigin.touch PointerOrigin.mouse
     ⟨1, 0, 0, 5⟩ 16 0 (by norm_num) (by norm_num)⟩

/-- C1: with autoScale off and a user-specified positive range R, the clip
value used for color mapping is exactly R, regardless of the maximum field
magnitude observed in the scene (no implicit cap against lastAmp). -/
theorem computeHeatmap_manual_range_exact (R lastAmp : ℚ) (h : 0 < R) :
    computeHeatmapClip false R lastAmp = R := by
  rw [computeHeatmapClip, if_neg Bool.false_ne_true, userRange, if_neg (ne_of_gt h)]

/-- C1 witness: with the observed maximum at 100, a manual range of 10
(smaller) and of 1000 (larger) are both used exactly. -/
theorem computeHeatmap_manual_range_exact_witness :
    ((0 : ℚ) < 10 ∧ computeHeatmapClip false 10 100 = 10) ∧
    ((0 : ℚ) < 1000 ∧ computeHeatmapClip false 1000 100 = 1000) :=
  ⟨⟨by norm_num, computeHeatmap_manual_range_exact 10 100 (by norm_num)⟩,
   ⟨by norm_num, computeHeatmap_manual_range_exact 1000 100 (by norm_num)⟩⟩

/-- C2 fails on the code: the heatmap recompute reached from the render loop
writes the recomputed clip back into the displayed range input (a defect the
repository review documents record as remaining at lines 369-371 and 941).
With autoScale on, a pass that observes amplitude 75 overwrites the
displayed value 40 with 75, so the render path is not read-only with respect
to the display-setting inputs. -/
theorem renderLoop_writes_back_display_input :
    (computeHeatmapPass ⟨true, 40⟩ 75).2.displayRangeValue = 75 ∧
    (computeHeatmapPass ⟨true, 40⟩ 75).2.displayRangeValue ≠ 40 ∧
    (computeHeatmapPass ⟨true, 40⟩ 75).2 ≠ (⟨true, 40⟩ : DisplayState) := by
  refine ⟨rfl, ?_, ?_⟩
  · show (75 : ℚ) ≠ 40
    norm_num
  · intro hcontra
    have : (75 : ℚ) = 40 := congrArg DisplayState.displayRangeValue hcontra
    norm_num at this

/-- C6 fails on the code: the magnitude input handler applies the parsed
value to the selected charge with no finiteness check, so a non-finite parse
result (NaN) replaces the prior valid magnitude instead of being rejected. -/
theorem magInput_accepts_nonfinite :
    applyMagInput [⟨1, JsNum.fin 5⟩] 1 JsNum.nan = [⟨1, JsNum.nan⟩] ∧
    JsNum.isFinite JsNum.nan = false ∧
    applyMagInput [⟨1, JsNum.fin 5⟩] 1 JsNum.nan ≠ [⟨1, JsNum.fin 5⟩] := by
  refine ⟨rfl, rfl, ?_⟩
  intro hcontra
  exact JsNum.noConfusion (congrArg UICharge.q (List.head_eq_of_cons_eq hcontra))

/-- Helper: parsing the serialization of a list of validated charges
recovers exactly their coordinate and magnitude triples. -/
theorem parseCharges_save (l : List Charge) :
    parseCharges (l.map fun c => ⟨JsNum.fin c.x, JsNum.fin c.y, JsNum.fin c.q⟩) =
      some (l.map fun c => (c.x, c.y, c.q)) := by
  induction l with
  | nil => rfl
  | cons a t ih => simp [parseCharges, parseSavedCharge, ih]

/-- Helper: rebuilding charges from triples preserves the observable
triples, whatever the starting id. -/
theorem buildCharges_observable (l : List (ℚ × ℚ × ℚ)) :
    ∀ i : Nat, (buildCharges i l).map (fun c => (c.x, c.y, c.q)) = l := by
  induction l with
  | nil => intro i; rfl
  | cons a t ih => intro i; simp [buildCharges, ih]

/-- Helper: charge-list validation fails as a whole when any charge has a
non-finite field. -/
theorem parseCharges_eq_none (l : List SavedCharge)
    (h : ∃ c ∈ l, parseSavedCharge c = none) : parseCharges l = none := by
  induction l with
  | nil => simp at h
  | cons a t ih =>
    rcases h with ⟨c, hc, hcnone⟩
    rcases List.mem_cons.mp hc with rfl | hct
    · rw [parseCharges, hcnone]
    · rw [parseCharges, ih ⟨c, hct, hcnone⟩]
      cases parseSavedCharge a <;> rfl

/-- C8: loading the serialization of a well-formed scene (finite charge data
is enforced by the rational scene type; the range is a positive real)
reproduces the identical observable scene: same charge count, positions and
magnitudes in order, and the same display settings. -/
theorem scene_roundtrip (s : Scene) (h : 0 < s.rangeV) :
    observableScene (loadScene (saveScene s)) = observableScene s := by
  have hparse : parseSavedScene (saveScene s) =
      some ⟨buildCharges 0 (s.charges.map fun c => (c.x, c.y, c.q)), s.autoScale, s.rangeV⟩ := by
    rw [parseSavedScene]
    rw [show (saveScene s).charges =
        s.charges.map fun c => ⟨JsNum.fin c.x, JsNum.fin c.y, JsNum.fin c.q⟩ from rfl]
    rw [parseCharges_save]
    rfl
  rw [loadScene, hparse, Option.getD_some, observableScene, observableScene]
  simp only [buildCharges_observable]

/-- C8 witness: a one-charge scene with manual scaling round-trips. -/
theorem scene_roundtrip_witness :
    (0 : ℚ) < (Scene.mk [⟨7, 2, 3, -5⟩] false 40).rangeV ∧
    observableScene (loadScene (saveScene (Scene.mk [⟨7, 2, 3, -5⟩] false 40))) =
      observableScene (Scene.mk [⟨7, 2, 3, -5⟩] false 40) :=
  ⟨by norm_num, scene_roundtrip (Scene.mk [⟨7, 2, 3, -5⟩] false 40) (by norm_num)⟩

/-- C9: a malformed serialized scene, one of whose charges has a non-finite
coordinate or magnitude, loads as exactly the default empty scene; no subset
of the malformed charge data is applied, and the load still returns a scene
rather than failing. -/
theorem malformed_load_default (s : SavedScene)
    (h : ∃ c ∈ s.charges, c.x.isFinite = false ∨ c.y.isFinite = false ∨ c.q.isFinite = false) :
    loadScene s = defaultScene ∧ (loadScene s).charges = [] := by
  have hbad : ∃ c ∈ s.charges, parseSavedCharge c = none := by
    rcases h with ⟨c, hc, hfield⟩
    refine ⟨c, hc, ?_⟩
    rcases c with ⟨x, y, q⟩
    rcases x <;> rcases y <;> rcases q <;> simp_all [parseSavedCharge, JsNum.isFinite]
  have hnone : parseSavedScene s = none := by
    rw [parseSavedScene, parseCharges_eq_none s.charges hbad]
  rw [loadScene, hnone, Option.getD_none]
  exact ⟨rfl, rfl⟩

/-- C9 witness: a saved scene whose single charge has NaN as x coordinate
loads as the default empty scene. -/
theorem malformed_load_default_witness :
    JsNum.isFinite JsNum.nan = false ∧
    (loadScene (SavedScene.mk [⟨JsNum.nan, JsNum.fin 0, JsNum.fin 1⟩] true (JsNum.fin 40)) =
        defaultScene ∧
      (loadScene (SavedScene.mk [⟨JsNum.nan, JsNum.fin 0, JsNum.fin 1⟩] true
          (JsNum.fin 40))).charges = []) :=
  ⟨rfl,
   malformed_load_default _ ⟨⟨JsNum.nan, JsNum.fin 0, JsNum.fin 1⟩, by simp, Or.inl rfl⟩⟩

/-- Helper: every carrier produced by one frame step satisfies the leak
invariant, from any starting pool: survivors passed the retirement check and
reseeded carriers restart at age zero at an in-bounds seed. -/
theorem carrierOK_stepFrame (vel : ℚ × ℚ → ℚ × ℚ) (seedPos : Carrier → ℚ × ℚ)
    (w hb sinkR : ℚ) (charges : List Charge)
    (hseed : ∀ c, inBounds w hb (seedPos c).1 (seedPos c).2 = true)
    (carriers : List Carrier) :
    ∀ c ∈ stepFrame vel seedPos w hb sinkR charges carriers, carrierOK w hb c = true := by
  intro c hc
  rw [stepFrame] at hc
  rcases List.mem_map.mp hc with ⟨c0, _, hc0⟩
  have hc0' :
      (if retireCarrier w hb sinkR charges (advanceCarrier vel c0) then
          reseedCarrier (seedPos (advanceCarrier vel c0))
        else advanceCarrier vel c0) = c := hc0
  by_cases hr : retireCarrier w hb sinkR charges (advanceCarrier vel c0) = true
  · rw [if_pos hr] at hc0'
    subst hc0'
    rw [carrierOK]
    rcases hp : seedPos (advanceCarrier vel c0) with ⟨sx, sy⟩
    have := hseed (advanceCarrier vel c0)
    rw [hp] at this
    simp [reseedCarrier, this, maxSteps]
  · rw [if_neg hr] at hc0'
    subst hc0'
    rw [retireCarrier] at hr
    simp only [Bool.or_eq_true, Bool.not_eq_true', not_or, Bool.not_eq_true,
      decide_eq_true_eq] at hr
    rw [carrierOK]
    simp [hr.1.1, hr.1.2, Nat.le_of_not_lt]

/-- C7: the leak invariant is an invariant of the per-frame step: after any
positive number of frames from any starting pool, every live carrier has
age at most maxSteps and position inside the configured visible bounds,
provided reseeding places carriers inside the bounds. -/
theorem flow_carrier_invariant (vel : ℚ × ℚ → ℚ × ℚ) (seedPos : Carrier → ℚ × ℚ)
    (w hb sinkR : ℚ) (charges : List Charge) (n : Nat) (carriers : List Carrier)
    (hseed : ∀ c, inBounds w hb (seedPos c).1 (seedPos c).2 = true) (hn : 1 ≤ n) :
    ((stepFrame vel seedPos w hb sinkR charges)^[n] carriers).all (carrierOK w hb) = true := by
  obtain ⟨m, rfl⟩ : ∃ m, n = m + 1 := ⟨n - 1, (Nat.succ_pred_eq_of_pos hn).symm⟩
  rw [Function.iterate_succ_apply', List.all_eq_true]
  exact carrierOK_stepFrame vel seedPos w hb sinkR charges hseed _

/-- C7 witness: one frame on a 480 x 332 canvas with a constant drift field,
reseeding at the canvas center, starting from a single carrier at the
origin. -/
theorem flow_carrier_invariant_witness :
    inBounds 480 332 240 166 = true ∧ 1 ≤ 1 ∧
    ((stepFrame (fun _ => (1, 0)) (fun _ => (240, 166)) 480 332 10 [])^[1]
        [⟨0, 0, 0⟩]).all (carrierOK 480 332) = true :=
  ⟨by decide, le_refl 1,
   flow_carrier_invariant (fun _ => (1, 0)) (fun _ => (240, 166)) 480 332 10 [] 1
     [⟨0, 0, 0⟩] (fun _ => (by decide : inBounds 480 332 240 166 = true)) (le_refl 1)⟩

/-- Helper: a left fold accumulating additions equals the starting value
plus the sum of the mapped list. -/
theorem foldl_add_map_sum {α : Type} (f : α → ℝ) (l : List α) :
    ∀ a : ℝ, l.foldl (fun acc c => acc + f c) a = a + (l.map f).sum := by
  induction l with
  | nil => intro a; simp
  | cons x t ih => intro a; simp [List.foldl_cons, ih, add_assoc]

/-- Helper: componentwise version for pair-valued folds. -/
theorem foldl_add_map_sum_pair {α : Type} (f g : α → ℝ) (l : List α) :
    ∀ a b : ℝ,
      l.foldl (fun acc c => (acc.1 + f c, acc.2 + g c)) (a, b) =
        (a + (l.map f).sum, b + (l.map g).sum) := by
  induction l with
  | nil => intro a b; simp
  | cons x t ih => intro a b; simp [List.foldl_cons, ih, add_assoc]

/-- C3: the Field Solver computes the superposition over all charges of
V = k q / r and E = k q (p - pc) / r^3 with r the softened distance
max(distance, soften); each softened radius is at least the softening
radius, which is positive, and at a query point coinciding with a charge
center the radius is exactly the softening radius, so no division by zero
ever occurs. -/
theorem fieldSolver_superposition_soft (k px py : ℝ) (charges : List FieldCharge) :
    potentialAt k charges px py =
      (charges.map fun c => k * c.q / softDist px py c.x c.y).sum ∧
    (fieldAt k charges px py).1 =
      (charges.map fun c => k * c.q * (px - c.x) / softDist px py c.x c.y ^ 3).sum ∧
    (fieldAt k charges px py).2 =
      (charges.map fun c => k * c.q * (py - c.y) / softDist px py c.x c.y ^ 3).sum ∧
    (∀ c : FieldCharge, soften ≤ softDist px py c.x c.y) ∧
    0 < soften ∧
    softDist px py px py = soften := by
  refine ⟨?_, ?_, ?_, ?_, ?_, ?_⟩
  · rw [potentialAt,
      foldl_add_map_sum (fun c => k * c.q / softDist px py c.x c.y) charges 0, zero_add]
  · rw [fieldAt,
      foldl_add_map_sum_pair (fun c => k * c.q * (px - c.x) / softDist px py c.x c.y ^ 3)
        (fun c => k * c.q * (py - c.y) / softDist px py c.x c.y ^ 3) charges 0 0]
    exact (zero_add _)
  · rw [fieldAt,
      foldl_add_map_sum_pair (fun c => k * c.q * (px - c.x) / softDist px py c.x c.y ^ 3)
        (fun c => k * c.q * (py - c.y) / softDist px py c.x c.y ^ 3) charges 0 0]
    exact (zero_add _)
  · exact fun c => le_max_right _ _
  · rw [soften]; norm_num
  · rw [softDist, dist]
    simp only [sub_self, ne_eq, OfNat.ofNat_ne_zero, not_false_eq_true, zero_pow, add_zero,
      Real.sqrt_zero]
    exact max_eq_right (by rw [soften]; norm_num)

end Electrostatics
